import Mathlib

/-! Verification development for the job email outreach service (src/main.py).

Python strings are modelled as lists of Unicode codepoints (`List Nat`),
matching Python `str` semantics for the ASCII-level operations the program
performs.  The regex word-boundary test uses the ASCII word characters
`[A-Za-z0-9_]`; the character classes of the email pattern are ASCII-only, so
every extracted address is pure ASCII.  External I/O (the Google search API,
fetched web pages, the SMTP transport, the database) is modelled by explicit
oracle parameters and state passing. -/

namespace JobOutreach

/-- Codepoints of a Lean string literal; used to transcribe the Python string
literals of the source faithfully. -/
def codes (s : String) : List Nat := s.data.map Char.toNat

/-- ASCII uppercase letters `A`-`Z`. -/
def isUpperCode (n : Nat) : Bool := decide (65 ≤ n ∧ n ≤ 90)

/-- ASCII lowercase letters `a`-`z`. -/
def isLowerCode (n : Nat) : Bool := decide (97 ≤ n ∧ n ≤ 122)

/-- ASCII digits `0`-`9`. -/
def isDigitCode (n : Nat) : Bool := decide (48 ≤ n ∧ n ≤ 57)

/-- ASCII letters. -/
def isAlphaCode (n : Nat) : Bool := isUpperCode n || isLowerCode n

/-- ASCII letters and digits. -/
def isAlnumCode (n : Nat) : Bool := isAlphaCode n || isDigitCode n

/-- Word characters for the regex boundary test (ASCII model of Python `\b`):
letters, digits and underscore. -/
def wordCode (n : Nat) : Bool := isAlnumCode n || n == 95

/-- Python `str.lower` on a single ASCII codepoint. -/
def lowerCode (n : Nat) : Nat := if 65 ≤ n ∧ n ≤ 90 then n + 32 else n

/-- ASCII whitespace stripped by Python `str.strip`. -/
def isSpaceCode (n : Nat) : Bool :=
  n == 32 || n == 9 || n == 10 || n == 13 || n == 11 || n == 12

/-- Python `str.strip`: drop leading and trailing whitespace. -/
def stripWs (l : List Nat) : List Nat :=
  ((l.dropWhile isSpaceCode).reverse.dropWhile isSpaceCode).reverse

/-! The email regex of src/main.py line 336:
`\b[A-Za-z0-9._%+-]+@[A-Za-z0-9.-]+\.[A-Z|a-z]{2,}\b`
compiled and used by the inner `extract_emails_from_text` helper of
`scrape_google_search`.  The scanner below reimplements `re.findall` for this
fixed pattern: leftmost scanning, greedy sub-matches with backtracking on the
domain split and on the TLD length against the trailing word boundary, and
continuation after the end of each match. -/

/-- Character class `[A-Za-z0-9._%+-]` (local part). Codes: 46 `.`, 95 `_`,
37 `%`, 43 `+`, 45 `-`. -/
def localCode (n : Nat) : Bool :=
  isAlnumCode n || n == 46 || n == 95 || n == 37 || n == 43 || n == 45

/-- Character class `[A-Za-z0-9.-]` (domain). -/
def domCode (n : Nat) : Bool := isAlnumCode n || n == 46 || n == 45

/-- Character class `[A-Z|a-z]` (TLD; the source pattern contains a literal
bar, code 124). -/
def tldCode (n : Nat) : Bool := isAlphaCode n || n == 124

/-- Whether the character at index `i` is a word character (out of range
counts as non-word, as at the ends of the string). -/
def isWordAt (l : List Nat) (i : Nat) : Bool := wordCode (l.getD i 0)

/-- Backtracking search for the TLD length: try `t` characters of
`[A-Z|a-z]{2,}` for `t` descending, accepting the first `t ≥ 2` whose end
position is a word boundary.  `src` is the text right after the dot. -/
def tldBacktrack (src : List Nat) : Nat → Option Nat
  | 0 => none
  | 1 => none
  | t + 2 =>
    if wordCode (src.getD (t + 1) 0) != isWordAt src (t + 2) then some (t + 2)
    else tldBacktrack src (t + 1)

/-- Backtracking search for the domain split: try `d` characters of
`[A-Za-z0-9.-]+` for `d` descending from the greedy maximum; the character at
index `d` must be the literal dot (code 46), then the TLD backtracking must
succeed on the remainder. -/
def domBacktrack (rest2 : List Nat) : Nat → Option (Nat × Nat)
  | 0 => none
  | d + 1 =>
    if rest2.getD (d + 1) 0 == 46 then
      match tldBacktrack (rest2.drop (d + 2))
          ((rest2.drop (d + 2)).takeWhile tldCode).length with
      | some t => some (d + 1, t)
      | none => domBacktrack rest2 d
    else domBacktrack rest2 d

/-- Try to match the email pattern at the start of `l`.  `prevWord` records
whether the character before `l` is a word character (false at the start of
the text), which decides the leading `\b`.  Returns the matched text and the
remainder of the input. -/
def tryMatch (prevWord : Bool) (l : List Nat) : Option (List Nat × List Nat) :=
  let loc := l.takeWhile localCode
  let rest := l.dropWhile localCode
  if loc.isEmpty then none
  else if wordCode (loc.headD 0) == prevWord then none
  else if rest.headD 0 == 64 then
    (domBacktrack rest.tail ((rest.tail.takeWhile domCode).length - 1)).map
      (fun dt =>
        (loc ++ 64 :: rest.tail.take dt.1 ++
           46 :: (rest.tail.drop (dt.1 + 1)).take dt.2,
         rest.tail.drop (dt.1 + 1 + dt.2)))
  else none

/-- One fuelled scanning pass of `re.findall`: at each position try the
pattern; on success emit the match and continue after it, otherwise advance
one character.  `l.length` fuel always suffices since every step consumes at
least one character. -/
def scanAux : Nat → Bool → List Nat → List (List Nat)
  | 0, _, _ => []
  | _ + 1, _, [] => []
  | fuel + 1, prevWord, c :: cs =>
    match tryMatch prevWord (c :: cs) with
    | some (m, rest) => m :: scanAux fuel (wordCode (m.getLastD 0)) rest
    | none => scanAux fuel (wordCode c) cs

/-- `re.findall` of the email pattern over a text. -/
def scanEmails (l : List Nat) : List (List Nat) := scanAux l.length false l

/-- Scanning a suffix of the text whose preceding character has word-ness
`pw`, with canonical fuel. -/
def scanFrom (pw : Bool) (l : List Nat) : List (List Nat) := scanAux l.length pw l

/-- Python substring containment (the `in` operator on `str`): some suffix of
`e` starts with `d`. -/
def subOccurs (d : List Nat) : List Nat → Bool
  | [] => d.isEmpty
  | c :: es => d.isPrefixOf (c :: es) || subOccurs d es

/-- The denylist of src/main.py lines 350-355 (substring filter). -/
def denySubstrings : List (List Nat) :=
  [codes "example.com", codes "test.com", codes "domain.com", codes "email.com",
   codes "noreply", codes "no-reply", codes "donotreply", codes "do-not-reply",
   codes "admin@", codes "webmaster@", codes "postmaster@", codes "abuse@",
   codes ".png", codes ".jpg", codes ".jpeg", codes ".gif", codes ".pdf",
   codes ".doc"]

/-- The length-and-at-sign check of src/main.py line 359:
`len(email) > 5 and len(email) < 100 and email.count('@') == 1`. -/
def lengthAtCheck (e : List Nat) : Bool :=
  decide (5 < e.length) && decide (e.length < 100) && (e.count 64 == 1)

/-- The per-candidate validation of src/main.py lines 346-360: skip when a
denylisted substring occurs, then apply the length and single-at checks. -/
def validFilter (e : List Nat) : Bool :=
  !(denySubstrings.any (fun d => subOccurs d e)) && lengthAtCheck e

/-- The inner `extract_emails_from_text` of `scrape_google_search`
(src/main.py lines 339-362): find all pattern matches, lowercase and strip
each, drop denylisted or ill-sized ones; the Python `set` result is modelled
as a duplicate-free list. -/
def extract_emails_from_text (text : List Nat) : List (List Nat) :=
  (((scanEmails text).map (fun m => stripWs (m.map lowerCode))).filter
    validFilter).dedup

/-- The lexical shape produced by the email pattern: a non-empty local part
over `[A-Za-z0-9._%+-]`, an at sign, a non-empty domain over `[A-Za-z0-9.-]`,
a dot, and a TLD of at least two characters over `[A-Z|a-z]`. -/
def emailShape (e : List Nat) : Prop :=
  ∃ loc dom tld, e = loc ++ 64 :: (dom ++ 46 :: tld) ∧ loc ≠ [] ∧
    loc.all localCode = true ∧ dom ≠ [] ∧ dom.all domCode = true ∧
    2 ≤ tld.length ∧ tld.all tldCode = true

/-- A well-formed address of exactly 100 characters: 94 letters `a`, then
`@x.com`. -/
def e100 : List Nat := List.replicate 94 97 ++ codes "@x.com"

/-- A well-formed address of exactly 99 characters. -/
def e99 : List Nat := List.replicate 93 97 ++ codes "@x.com"

/-! The `JobRequest` pydantic model (src/main.py lines 77-127).  Optional
string fields are `Option (List Nat)`; Python truthiness treats both `None`
and the empty string as absent. -/

/-- The request body of `POST /send-emails`. -/
structure JobRequest where
  job_title : List Nat
  experience_level : Option (List Nat)
  experience_years : Option (List Nat)
  required_skills : List (List Nat)
  preferred_skills : List (List Nat)
  locations : List (List Nat)
  remote_ok : Bool
  company_types : List (List Nat)
  target_companies : List (List Nat)
  company_size : Option (List Nat)
  industries : List (List Nat)
  domains : List (List Nat)
  employment_type : Option (List Nat)
  salary_range : Option (List Nat)
  max_emails : Nat
  urgency : Option (List Nat)
deriving DecidableEq

/-- Python truthiness of an optional string: false for `None` and for `""`. -/
def truthyOpt : Option (List Nat) → Bool
  | none => false
  | some s => !s.isEmpty

/-- Value of an optional string field (only read under a truthiness guard). -/
def optVal (o : Option (List Nat)) : List Nat := o.getD []

/-- Python `', '.join(xs)`. -/
def joinComma (xs : List (List Nat)) : List Nat := (codes ", ").intercalate xs

/-- Python `str.lower` over a whole string. -/
def lowerStr (l : List Nat) : List Nat := l.map lowerCode

/-! `EmailService.create_personalized_email` (src/main.py lines 827-925):
clause builders, the f-string template, and the blank-line cleanup. -/

/-- The skills block (lines 832-836). -/
def skills_text (req : JobRequest) : List Nat :=
  (if !req.required_skills.isEmpty then
    codes "• Proficient in: " ++ joinComma req.required_skills ++ [10]
  else []) ++
  (if !req.preferred_skills.isEmpty then
    codes "• Additional experience with: " ++ joinComma req.preferred_skills ++ [10]
  else [])

/-- The experience clause (lines 839-847). -/
def experience_text (req : JobRequest) : List Nat :=
  if truthyOpt req.experience_level && truthyOpt req.experience_years then
    codes "As a " ++ lowerStr (optVal req.experience_level) ++
      codes "-level professional with " ++ optVal req.experience_years ++
      codes " of experience, "
  else if truthyOpt req.experience_level then
    codes "As a " ++ lowerStr (optVal req.experience_level) ++
      codes "-level professional, "
  else if truthyOpt req.experience_years then
    codes "With " ++ optVal req.experience_years ++ codes " of experience, "
  else codes "As a dedicated software professional, "

/-- The location clause (lines 850-857). -/
def location_text (req : JobRequest) : List Nat :=
  if !req.locations.isEmpty then
    if req.remote_ok then
      codes "I am open to opportunities in " ++ joinComma req.locations ++
        codes " as well as remote positions."
    else
      codes "I am specifically interested in opportunities in " ++
        joinComma req.locations ++ codes "."
  else if req.remote_ok then
    codes "I am open to both on-site and remote opportunities."
  else []

/-- The company-type clause (lines 860-862). -/
def company_text (req : JobRequest) : List Nat :=
  if !req.company_types.isEmpty then
    codes "I am particularly interested in " ++
      lowerStr (joinComma req.company_types) ++ codes " companies."
  else []

/-- The industry clause (lines 865-867). -/
def industry_text (req : JobRequest) : List Nat :=
  if !req.industries.isEmpty then
    codes "I am passionate about working in the " ++
      joinComma req.industries ++ codes " space."
  else []

/-- The domain clause (lines 870-872). -/
def domain_text (req : JobRequest) : List Nat :=
  if !req.domains.isEmpty then
    codes "My expertise spans " ++ lowerStr (joinComma req.domains) ++
      codes " development."
  else []

/-- The salary clause (lines 875-877). -/
def salary_text (req : JobRequest) : List Nat :=
  if truthyOpt req.salary_range then
    codes "My salary expectation is in the range of " ++
      optVal req.salary_range ++ codes "."
  else []

/-- The urgency clause (lines 880-882). -/
def urgency_text (req : JobRequest) : List Nat :=
  if truthyOpt req.urgency && (lowerStr (optVal req.urgency) == codes "urgent")
  then codes "I am actively seeking new opportunities and available for immediate start."
  else []

/-- The hard-coded `Config` links (lines 139-144); the sender address comes
from the environment, so it is a parameter below. -/
def RESUME_URL : List Nat :=
  codes "https://drive.google.com/file/d/1837oezUk6Uz1rCsElKmn0oMUFGJovvx4/view"

/-- GitHub profile link from `Config`. -/
def GITHUB_URL : List Nat := codes "https://github.com/mrsingh-rishi"

/-- LinkedIn profile link from `Config`. -/
def LINKEDIN_URL : List Nat :=
  codes "https://www.linkedin.com/in/rishi-singh-332a481a4/"

/-- Sender name from `Config`. -/
def SENDER_NAME : List Nat := codes "Rishi Singh"

/-- The f-string template of lines 885-916, before cleanup.  Codepoint 39 is
the apostrophe and 10 the newline of the triple-quoted literal; the trailing
run is the newline plus eight spaces of indentation before the closing
quotes. -/
def emailTemplate (senderEmail : List Nat) (req : JobRequest) : List Nat :=
  codes "\nDear Hiring Manager,\n\nI hope this email finds you well. I am writing to express my strong interest in the " ++
  (req.job_title ++
  (codes " position at your organization.\n\n" ++
  (experience_text req ++
  (codes "I am excited about the opportunity to contribute to your team. My background includes:\n\n" ++
  (skills_text req ++
  (codes "• Strong problem-solving skills and ability to work in agile environments\n• Passion for creating efficient, scalable solutions\n" ++
  (domain_text req ++
  (codes "\n\n" ++
  (industry_text req ++
  (codes " " ++
  (company_text req ++
  (codes "\n\n" ++
  (location_text req ++
  (codes "\n\n" ++
  (urgency_text req ++
  (codes "\n\n" ++
  (salary_text req ++
  (codes "\n\nI have attached my resume for your review and would welcome the opportunity to discuss how my skills and enthusiasm can contribute to your team" ++
  (39 :: codes "s success.\n\nYou can also find more about my work:\n• Resume: " ++
  (RESUME_URL ++
  (codes "\n• GitHub: " ++
  (GITHUB_URL ++
  (codes "\n• LinkedIn: " ++
  (LINKEDIN_URL ++
  (codes "\n\nThank you for considering my application. I look forward to hearing from you.\n\nBest regards,\n" ++
  (SENDER_NAME ++
  (10 :: (senderEmail ++
  codes "\n        "))))))))))))))))))))))))))))

/-- Python `s.split('\n')` (code 10). -/
def splitNl : List Nat → List (List Nat)
  | [] => [[]]
  | c :: cs =>
    if c = 10 then [] :: splitNl cs
    else
      match splitNl cs with
      | l :: ls => (c :: l) :: ls
      | [] => [[c]]

/-- Python `'\n'.join(ls)`. -/
def joinNl : List (List Nat) → List Nat
  | [] => []
  | [l] => l
  | l :: ls => l ++ 10 :: joinNl ls

/-- The keep-or-drop loop of lines 920-923: keep a line when it is non-empty,
or when the previously kept line exists and is non-empty.  `prevKept` is the
Python condition `cleaned_lines and cleaned_lines[-1]` threaded through the
loop. -/
def coalesce : List (List Nat) → Bool → List (List Nat)
  | [], _ => []
  | l :: ls, prevKept =>
    if l.isEmpty then
      if prevKept then [] :: coalesce ls false else coalesce ls false
    else l :: coalesce ls true

/-- The cleanup of lines 919-925: split, strip each line, coalesce blank
lines, join, strip the whole. -/
def cleanupTemplate (t : List Nat) : List Nat :=
  stripWs (joinNl (coalesce ((splitNl t).map stripWs) false))

/-- `EmailService.create_personalized_email`: render the template for a
request and recipient (the recipient parameter is accepted but unused in the
source body) and apply the blank-line cleanup. -/
def create_personalized_email (senderEmail : List Nat) (req : JobRequest)
    (recipient : List Nat) : List Nat :=
  cleanupTemplate (emailTemplate senderEmail req)

/-- No two adjacent lines of the list are both empty. -/
def noAdjEmpty : List (List Nat) → Prop
  | [] => True
  | [_] => True
  | a :: b :: t => (a ≠ [] ∨ b ≠ []) ∧ noAdjEmpty (b :: t)

/-! The database service (src/main.py lines 957-1005).  The `email_logs`
table is modelled as an append-only list of records; `sent_at` timestamps are
not modelled (no modelled claim depends on them). -/

/-- One row of `email_logs`. -/
structure LogRecord where
  job_title : List Nat
  recipient_email : List Nat
  status : List Nat
deriving DecidableEq

/-- `DatabaseService.log_email`: append one row. -/
def log_email (db : List LogRecord) (jt recipient status : List Nat) :
    List LogRecord :=
  db ++ [⟨jt, recipient, status⟩]

/-- `DatabaseService.get_existing_emails`: `SELECT DISTINCT recipient_email`. -/
def get_existing_emails (db : List LogRecord) : List (List Nat) :=
  (db.map (fun r => r.recipient_email)).dedup

/-! The `POST /send-emails` endpoint (src/main.py lines 1021-1100). -/

/-- The deduplication step of lines 1041-1042: the candidates not present in
the existing-contact set, plus the number removed. -/
def historyFilter (scraped existing : List (List Nat)) :
    List (List Nat) × Nat :=
  let new := scraped.filter (fun e => !(existing.contains e))
  (new, scraped.length - new.length)

/-- The dispatch loop of lines 1064-1085: for each candidate ask the
transport (the `sendOk` oracle stands for `EmailService.send_email`, which
returns a bool and never raises), log exactly one row with status `sent` or
`failed`, and continue with the remaining candidates.  The rendered body does
not influence the outcome and is not recomputed here.  Returns
(sent count, failed count, successfully sent addresses, appended rows). -/
def dispatchLoop (jt : List Nat) (sendOk : List Nat → Bool) :
    List (List Nat) → Nat × Nat × List (List Nat) × List LogRecord
  | [] => (0, 0, [], [])
  | e :: es =>
    let success := sendOk e
    let r := dispatchLoop jt sendOk es
    (if success then r.1 + 1 else r.1,
     if success then r.2.1 else r.2.1 + 1,
     if success then e :: r.2.2.1 else r.2.2.1,
     (⟨jt, e, if success then codes "sent" else codes "failed"⟩ : LogRecord) :: r.2.2.2)

/-- The JSON summary returned by the endpoint. -/
structure SendSummary where
  message : List Nat
  job_title : List Nat
  total_emails_scraped : Nat
  emails_skipped_duplicate : Nat
  new_emails_found : Nat
  emails_sent : Nat
  emails_failed : Nat
  emails : List (List Nat)
deriving DecidableEq

/-- An `HTTPException` surfaced to the client. -/
structure HttpError where
  status_code : Nat
  detail : List Nat
deriving DecidableEq

/-- The body of the `try` block of `send_job_emails` (lines 1027-1096), given
the scraped candidate list: raise 404 on no candidates, filter against the
contact history, return early when nothing new remains, otherwise dispatch
and log.  Returns the response together with the database state. -/
def send_job_emails_inner (req : JobRequest) (scraped : List (List Nat))
    (sendOk : List Nat → Bool) (db : List LogRecord) :
    Except HttpError SendSummary × List LogRecord :=
  if scraped.isEmpty then
    (Except.error ⟨404, codes "No recruiter emails found for this job criteria"⟩, db)
  else
    match historyFilter scraped (get_existing_emails db) with
    | (new_emails, skipped) =>
      if new_emails.isEmpty then
        (Except.ok
          ⟨codes "No new emails to send - all scraped emails have been contacted before",
           req.job_title, scraped.length, skipped, 0, 0, 0, []⟩, db)
      else
        match dispatchLoop req.job_title sendOk new_emails with
        | (sent, failedCt, sentEmails, rows) =>
          (Except.ok
            ⟨codes "Email sending process completed with deduplication",
             req.job_title, scraped.length, skipped, new_emails.length, sent,
             failedCt, sentEmails⟩, db ++ rows)

/-- The full endpoint including the `except Exception` handler of lines
1098-1100, which catches every exception — including the `HTTPException`
raised inside the `try` block, since `HTTPException` subclasses `Exception` —
and re-raises it with status 500.  (The exact interpolated detail text is not
modelled; no claim inspects it.) -/
def send_job_emails (req : JobRequest) (scraped : List (List Nat))
    (sendOk : List Nat → Bool) (db : List LogRecord) :
    Except HttpError SendSummary × List LogRecord :=
  match send_job_emails_inner req scraped sendOk db with
  | (Except.error e, db2) =>
    (Except.error ⟨500, codes "Internal server error: " ++ e.detail⟩, db2)
  | ok => ok

/-! `scrape_google_search` (src/main.py lines 326-683).  Network traffic is
modelled by oracles: each query is a function from a page start offset to a
`PageOutcome`, and each result link carries the page body the scraper would
fetch from it (or none when that fetch fails, is skipped, or is not HTML).
The query strings themselves, the random shuffle, batching and sleeping do
not affect which candidates are collected and are abstracted away. -/

/-- One item of a Google custom-search result page. -/
structure SearchItem where
  snippet : List Nat
  title : List Nat
  link : List Nat
  body : Option (List Nat)

/-- Outcome of fetching one result page of one query: an HTTP response with a
status and (for 200) parsed items, or an exception (network or parse
failure). -/
inductive PageOutcome where
  | ok (status : Nat) (items : List SearchItem)
  | exn

/-- The promising-link keywords of line 420. -/
def linkKeywords : List (List Nat) :=
  [codes "career", codes "job", codes "contact", codes "about", codes "team"]

/-- The skipped social hosts of line 372. -/
def socialHosts : List (List Nat) :=
  [codes "facebook.com", codes "twitter.com", codes "instagram.com",
   codes "tiktok.com"]

/-- `urlparse(url).netloc` for an absolute http(s) URL: the text after the
scheme separator up to the first `/`, `?` or `#`. -/
def netlocOf (l : List Nat) : List Nat :=
  let rest :=
    if (codes "https://").isPrefixOf l then l.drop 8
    else if (codes "http://").isPrefixOf l then l.drop 7
    else l
  rest.takeWhile (fun c => !(c == 47 || c == 63 || c == 35))

/-- `scrape_page_content` (lines 365-384): skip non-http and social links;
otherwise extract addresses from the fetched body.  All fetch failures are
caught inside and collapse to the `none` oracle. -/
def scrape_page_content (link : List Nat) (body : Option (List Nat)) :
    List (List Nat) :=
  if !((codes "http://").isPrefixOf link || (codes "https://").isPrefixOf link)
  then []
  else if socialHosts.contains (netlocOf link) then []
  else
    match body with
    | some content => extract_emails_from_text content
    | none => []

/-- Harvest of one result item (lines 409-421): extract from the snippet,
title and link text, then from the linked page when the link looks
promising. -/
def itemHarvest (it : SearchItem) : List (List Nat) :=
  let textContent := it.snippet ++ 32 :: it.title ++ 32 :: it.link
  let found := extract_emails_from_text textContent
  let additional :=
    if linkKeywords.any (fun k => subOccurs k (lowerStr it.link)) then
      scrape_page_content it.link it.body
    else []
  (found ++ additional).dedup

/-- Harvest of one 200 result page. -/
def pageHarvest (items : List SearchItem) : List (List Nat) :=
  ((items.map itemHarvest).flatten).dedup

/-- The pagination loop of `search_and_extract` (lines 387-435) over the page
offsets, threading the accumulated set: a 200 page is harvested, a 429 page
breaks out of the pagination, any other status is skipped, and an exception
ends the query returning what was accumulated so far (the `except` clause). -/
def searchPages (fetch : Nat → PageOutcome) :
    List Nat → List (List Nat) → List (List Nat)
  | [], acc => acc
  | s :: rest, acc =>
    match fetch s with
    | PageOutcome.exn => acc
    | PageOutcome.ok status items =>
      if status == 200 then searchPages fetch rest ((acc ++ pageHarvest items).dedup)
      else if status == 429 then acc
      else searchPages fetch rest acc

/-- `search_and_extract`: paginate through starts 1, 11, 21. -/
def search_and_extract (fetch : Nat → PageOutcome) : List (List Nat) :=
  searchPages fetch [1, 11, 21] []

/-- The network oracle for one `scrape_google_search` run: page outcomes for
the (shuffled, truncated) main queries and for the un-truncated deep-search
and targeted rounds. -/
structure SearchOracle where
  mainQueries : List (Nat → PageOutcome)
  deepQueries : List (Nat → PageOutcome)
  targetedQueries : List (Nat → PageOutcome)

/-- Accumulate the candidates of a list of queries into a running set
(batching only schedules the same calls). -/
def runQueries (qs : List (Nat → PageOutcome)) (acc : List (List Nat)) :
    List (List Nat) :=
  qs.foldl (fun a q => (a ++ search_and_extract q).dedup) acc

/-- `scrape_google_search` (lines 437-683): return an empty set immediately
when either credential is missing or empty; otherwise run the main queries,
the deep-search round when anything was found, and the targeted round when
fewer than 50 addresses were collected. -/
def scrape_google_search (apiKey engineId : Option (List Nat))
    (oracle : SearchOracle) : List (List Nat) :=
  if !(truthyOpt apiKey) || !(truthyOpt engineId) then []
  else
    let afterMain := runQueries oracle.mainQueries []
    let afterDeep :=
      if 0 < afterMain.length then runQueries oracle.deepQueries afterMain
      else afterMain
    if afterDeep.length < 50 then runQueries oracle.targetedQueries afterDeep
    else afterDeep

/-- `scrape_job_emails` (lines 270-324): the generated-pattern source is
commented out in the source, so the candidate set is exactly the Google
search result; `final_emails = list(all_emails)` applies no truncation. -/
def scrape_job_emails (apiKey engineId : Option (List Nat))
    (oracle : SearchOracle) : List (List Nat) :=
  (scrape_google_search apiKey engineId oracle).dedup

/-- The composed endpoint: scrape, then run `send_job_emails`. -/
def send_job_emails_pipeline (req : JobRequest)
    (apiKey engineId : Option (List Nat)) (oracle : SearchOracle)
    (sendOk : List Nat → Bool) (db : List LogRecord) :
    Except HttpError SendSummary × List LogRecord :=
  send_job_emails req (scrape_job_emails apiKey engineId oracle) sendOk db

/-! Concrete inputs used by counterexamples and witnesses. -/

/-- A minimal request: `Backend Engineer`, `max_emails = 10`, defaults
elsewhere. -/
def sampleReq : JobRequest :=
  ⟨codes "Backend Engineer", none, none, [], [], [], true, [], [], none, [],
   [], none, none, 10, none⟩

/-- A snippet carrying eleven distinct valid addresses. -/
def c2snippet : List Nat :=
  codes "e1@x.com e2@x.com e3@x.com e4@x.com e5@x.com e6@x.com e7@x.com e8@x.com e9@x.com ea@x.com eb@x.com"

/-- The eleven addresses of `c2snippet` in extraction order. -/
def c2emails : List (List Nat) :=
  [codes "e1@x.com", codes "e2@x.com", codes "e3@x.com", codes "e4@x.com",
   codes "e5@x.com", codes "e6@x.com", codes "e7@x.com", codes "e8@x.com",
   codes "e9@x.com", codes "ea@x.com", codes "eb@x.com"]

/-- A search item whose snippet carries the eleven addresses. -/
def c2item : SearchItem := ⟨c2snippet, [], codes "x.com", none⟩

/-- A query producing the eleven addresses on its first page and nothing
afterwards. -/
def c2fetch : Nat → PageOutcome :=
  fun s => if s == 1 then PageOutcome.ok 200 [c2item] else PageOutcome.ok 200 []

/-- A search run consisting of the single query above. -/
def c2oracle : SearchOracle := ⟨[c2fetch], [], []⟩

/-- A query whose first page yields one address and whose second page raises:
a failing query that still contributes a candidate. -/
def c7fetch : Nat → PageOutcome :=
  fun s =>
    if s == 1 then
      PageOutcome.ok 200 [⟨codes "reach us at team1@corp.io", [], codes "x.com", none⟩]
    else PageOutcome.exn

/-- The single result page of `c7fetch`. -/
def c7items : List SearchItem :=
  [⟨codes "reach us at team1@corp.io", [], codes "x.com", none⟩]

/-- A query used by the failure-isolation witness: page one succeeds with one
address, page two raises. -/
def c7fetchW : Nat → PageOutcome :=
  fun s =>
    if s == 1 then
      PageOutcome.ok 200 [⟨codes "write to dev2@corp.io", [], codes "y.com", none⟩]
    else PageOutcome.exn

/-- The single result page of `c7fetchW`. -/
def c7itemsW : List SearchItem :=
  [⟨codes "write to dev2@corp.io", [], codes "y.com", none⟩]

/-! ## Helper lemmas -/

theorem runQueries_cons (q : Nat → PageOutcome) (qs : List (Nat → PageOutcome))
    (acc : List (List Nat)) :
    runQueries (q :: qs) acc = runQueries qs ((acc ++ search_and_extract q).dedup) := rfl

theorem runQueries_mem_mono (qs : List (Nat → PageOutcome)) :
    ∀ (acc : List (List Nat)) (e : List Nat), e ∈ acc → e ∈ runQueries qs acc := by
  induction qs with
  | nil => intro acc e h; simpa [runQueries] using h
  | cons q qs ih =>
    intro acc e h
    rw [runQueries_cons]
    exact ih _ _ (by simp [List.mem_dedup]; exact Or.inl h)

theorem runQueries_mem_of_query (qs : List (Nat → PageOutcome)) :
    ∀ (q : Nat → PageOutcome), q ∈ qs → ∀ (acc : List (List Nat)) (e : List Nat),
      e ∈ search_and_extract q → e ∈ runQueries qs acc := by
  induction qs with
  | nil => intro q hq; cases hq
  | cons q0 qs ih =>
    intro q hq acc e he
    rcases List.mem_cons.1 hq with h | h
    · rw [runQueries_cons]
      exact runQueries_mem_mono qs _ e (by simp [List.mem_dedup]; exact Or.inr (h ▸ he))
    · rw [runQueries_cons]; exact ih q h _ e he

theorem take_all_of_takeWhile (p : Nat → Bool) :
    ∀ (l : List Nat) (d : Nat), d ≤ (l.takeWhile p).length →
      (l.take d).all p = true := by
  intro l
  induction l with
  | nil => intro d _; simp
  | cons c cs ih =>
    intro d hd
    by_cases hc : p c
    · cases d with
      | zero => simp
      | succ d =>
        simp only [List.takeWhile_cons, hc, if_true, List.length_cons,
          Nat.succ_le_succ_iff] at hd
        simp [hc, ih d hd]
    · simp [List.takeWhile_cons, hc] at hd
      subst hd
      simp

theorem tldBacktrack_bounds (src : List Nat) :
    ∀ t0 t, tldBacktrack src t0 = some t → 2 ≤ t ∧ t ≤ t0 := by
  intro t0
  induction t0 with
  | zero => intro t h; simp [tldBacktrack] at h
  | succ t0 ih =>
    intro t h
    cases t0 with
    | zero => simp [tldBacktrack] at h
    | succ t0 =>
      simp only [tldBacktrack] at h
      split at h
      · cases h; omega
      · have := ih t h; omega

theorem domBacktrack_facts (rest2 : List Nat) :
    ∀ d0 d t, domBacktrack rest2 d0 = some (d, t) →
      1 ≤ d ∧ d ≤ d0 ∧
      tldBacktrack (rest2.drop (d + 1))
        ((rest2.drop (d + 1)).takeWhile tldCode).length = some t := by
  intro d0
  induction d0 with
  | zero => intro d t h; simp [domBacktrack] at h
  | succ d0 ih =>
    intro d t h
    simp only [domBacktrack] at h
    split at h
    · split at h
      · rename_i t' heq
        cases h
        exact ⟨by omega, le_refl _, heq⟩
      · have := ih d t h
        exact ⟨this.1, by omega, this.2.2⟩
    · have := ih d t h
      exact ⟨this.1, by omega, this.2.2⟩

theorem takeWhile_all (p : Nat → Bool) (l : List Nat) :
    (l.takeWhile p).all p = true := by
  rw [List.all_eq_true]
  intro x hx
  exact List.mem_takeWhile_imp hx

theorem tryMatch_shape (pw : Bool) (l m r : List Nat)
    (h : tryMatch pw l = some (m, r)) :
    emailShape m ∧ r.length < l.length := by
  simp only [tryMatch] at h
  split_ifs at h with h1 h2 h3
  rw [Option.map_eq_some'] at h
  obtain ⟨⟨d, t⟩, hdb, hft⟩ := h
  simp only [Prod.mk.injEq] at hft
  obtain ⟨hm, hr⟩ := hft
  set rest2 := (l.dropWhile localCode).tail with hrest2
  obtain ⟨hd1, hdle, htld⟩ :=
    domBacktrack_facts rest2 ((rest2.takeWhile domCode).length - 1) d t hdb
  obtain ⟨ht2, htle⟩ := tldBacktrack_bounds (rest2.drop (d + 1)) _ t htld
  have hrunle : (rest2.takeWhile domCode).length ≤ rest2.length :=
    (List.takeWhile_prefix domCode).length_le
  have hdrun : d ≤ (rest2.takeWhile domCode).length := by omega
  have htrunle : ((rest2.drop (d + 1)).takeWhile tldCode).length ≤
      (rest2.drop (d + 1)).length :=
    (List.takeWhile_prefix tldCode).length_le
  have hlocne : l.takeWhile localCode ≠ [] := by
    intro hc
    rw [hc] at h1
    exact h1 rfl
  constructor
  · refine ⟨l.takeWhile localCode, rest2.take d,
      (rest2.drop (d + 1)).take t, ?_, hlocne, takeWhile_all _ _,
      ?_, take_all_of_takeWhile domCode rest2 d hdrun, ?_, ?_⟩
    · rw [← hm]
      simp [List.append_assoc, List.cons_append]
    · have hlen : (rest2.take d).length = d := by
        rw [List.length_take]
        have : d ≤ rest2.length := by omega
        omega
      intro hc
      rw [hc] at hlen
      simp at hlen
      omega
    · rw [List.length_take]
      have hsrc : t ≤ (rest2.drop (d + 1)).length := by omega
      omega
    · exact take_all_of_takeWhile tldCode (rest2.drop (d + 1)) t (by omega)
  · have hsplit : l.length =
        (l.takeWhile localCode).length + (l.dropWhile localCode).length := by
      conv_lhs => rw [← List.takeWhile_append_dropWhile localCode l]
      rw [List.length_append]
    have hdropne : l.dropWhile localCode ≠ [] := by
      intro hc
      rw [hc] at h3
      simp at h3
    have hdnn : 1 ≤ (l.dropWhile localCode).length := List.length_pos.2 hdropne
    have htail : rest2.length = (l.dropWhile localCode).length - 1 := by
      rw [hrest2, List.length_tail]
    have hrlen : r.length = rest2.length - (d + 1 + t) := by
      rw [← hr, List.length_drop]
    have hlpos : 1 ≤ (l.takeWhile localCode).length := List.length_pos.2 hlocne
    omega

theorem scanAux_shape :
    ∀ (fuel : Nat) (pw : Bool) (l m : List Nat),
      m ∈ scanAux fuel pw l → emailShape m := by
  intro fuel
  induction fuel with
  | zero => intro pw l m h; simp [scanAux] at h
  | succ fuel ih =>
    intro pw l m h
    cases l with
    | nil => simp [scanAux] at h
    | cons c cs =>
      cases htm : tryMatch pw (c :: cs) with
      | none =>
        rw [scanAux, htm] at h
        exact ih _ _ _ h
      | some mr =>
        obtain ⟨m0, rest⟩ := mr
        rw [scanAux, htm] at h
        rcases List.mem_cons.1 h with h | h
        · exact h ▸ (tryMatch_shape pw (c :: cs) m0 rest htm).1
        · exact ih _ _ _ h

theorem localCode_not_space (c : Nat) (h : localCode c = true) :
    isSpaceCode c = false := by
  simp only [localCode, isAlnumCode, isAlphaCode, isUpperCode, isLowerCode,
    isDigitCode, isSpaceCode, decide_eq_true_eq, Bool.or_eq_true,
    beq_iff_eq, Bool.or_eq_false_iff, beq_eq_false_iff_ne] at h ⊢
  omega

theorem domCode_not_space (c : Nat) (h : domCode c = true) :
    isSpaceCode c = false := by
  simp only [domCode, isAlnumCode, isAlphaCode, isUpperCode, isLowerCode,
    isDigitCode, isSpaceCode, decide_eq_true_eq, Bool.or_eq_true,
    beq_iff_eq, Bool.or_eq_false_iff, beq_eq_false_iff_ne] at h ⊢
  omega

theorem tldCode_not_space (c : Nat) (h : tldCode c = true) :
    isSpaceCode c = false := by
  simp only [tldCode, isAlphaCode, isUpperCode, isLowerCode, isSpaceCode,
    decide_eq_true_eq, Bool.or_eq_true, beq_iff_eq, Bool.or_eq_false_iff,
    beq_eq_false_iff_ne] at h ⊢
  omega

theorem lowerCode_localCode (c : Nat) (h : localCode c = true) :
    localCode (lowerCode c) = true := by
  unfold lowerCode
  split_ifs with hc
  · simp only [localCode, isAlnumCode, isAlphaCode, isUpperCode, isLowerCode,
      isDigitCode, decide_eq_true_eq, Bool.or_eq_true, beq_iff_eq] at h ⊢
    omega
  · exact h

theorem lowerCode_domCode (c : Nat) (h : domCode c = true) :
    domCode (lowerCode c) = true := by
  unfold lowerCode
  split_ifs with hc
  · simp only [domCode, isAlnumCode, isAlphaCode, isUpperCode, isLowerCode,
      isDigitCode, decide_eq_true_eq, Bool.or_eq_true, beq_iff_eq] at h ⊢
    omega
  · exact h

theorem lowerCode_tldCode (c : Nat) (h : tldCode c = true) :
    tldCode (lowerCode c) = true := by
  unfold lowerCode
  split_ifs with hc
  · simp only [tldCode, isAlphaCode, isUpperCode, isLowerCode,
      decide_eq_true_eq, Bool.or_eq_true, beq_iff_eq] at h ⊢
    omega
  · exact h

@[simp] theorem lowerCode_at : lowerCode 64 = 64 := by decide

@[simp] theorem lowerCode_dot : lowerCode 46 = 46 := by decide

theorem lowerCode_not_upper (c : Nat) : isUpperCode (lowerCode c) = false := by
  unfold lowerCode
  split_ifs with hc <;>
    (simp only [isUpperCode, decide_eq_true_eq, decide_eq_false_iff_not]
     omega)

theorem dropWhile_eq_self_of (p : Nat → Bool) (l : List Nat)
    (h : ∀ c ∈ l, p c = false) : l.dropWhile p = l := by
  cases l with
  | nil => rfl
  | cons c cs => simp [List.dropWhile_cons, h c (by simp)]

theorem stripWs_eq_self (l : List Nat)
    (h : ∀ c ∈ l, isSpaceCode c = false) : stripWs l = l := by
  unfold stripWs
  rw [dropWhile_eq_self_of _ _ h, dropWhile_eq_self_of, List.reverse_reverse]
  intro c hc
  exact h c (List.mem_reverse.1 hc)

theorem emailShape_no_space (e : List Nat) (h : emailShape e) :
    ∀ c ∈ e, isSpaceCode c = false := by
  obtain ⟨loc, dom, tld, rfl, _, hloc, _, hdom, _, htld⟩ := h
  intro c hc
  rw [List.all_eq_true] at hloc hdom htld
  simp only [List.mem_append, List.mem_cons] at hc
  rcases hc with hc | hc | hc
  · exact localCode_not_space c (hloc c hc)
  · subst hc; decide
  · rcases hc with hc | hc | hc
    · exact domCode_not_space c (hdom c hc)
    · subst hc; decide
    · exact tldCode_not_space c (htld c hc)

theorem emailShape_map_lower (e : List Nat) (h : emailShape e) :
    emailShape (e.map lowerCode) := by
  obtain ⟨loc, dom, tld, rfl, hne, hloc, hdne, hdom, hlen, htld⟩ := h
  rw [List.all_eq_true] at hloc hdom htld
  refine ⟨loc.map lowerCode, dom.map lowerCode, tld.map lowerCode, ?_,
    by simp [hne], ?_, by simp [hdne], ?_, by simp [hlen], ?_⟩
  · simp
  · rw [List.all_eq_true]
    intro x hx
    obtain ⟨c, hc, rfl⟩ := List.mem_map.1 hx
    exact lowerCode_localCode c (hloc c hc)
  · rw [List.all_eq_true]
    intro x hx
    obtain ⟨c, hc, rfl⟩ := List.mem_map.1 hx
    exact lowerCode_domCode c (hdom c hc)
  · rw [List.all_eq_true]
    intro x hx
    obtain ⟨c, hc, rfl⟩ := List.mem_map.1 hx
    exact lowerCode_tldCode c (htld c hc)

theorem takeWhile_append_not (p : Nat → Bool) (b : Nat) (hb : p b = false)
    (u v : List Nat) : (u ++ b :: v).takeWhile p = u.takeWhile p := by
  induction u with
  | nil => simp [List.takeWhile_cons, hb]
  | cons c cs ih =>
    by_cases hc : p c
    · simp [List.takeWhile_cons, hc, ih]
    · simp [List.takeWhile_cons, hc]

theorem dropWhile_append_not (p : Nat → Bool) (b : Nat) (hb : p b = false)
    (u v : List Nat) : (u ++ b :: v).dropWhile p = u.dropWhile p ++ b :: v := by
  induction u with
  | nil => simp [List.dropWhile_cons, hb]
  | cons c cs ih =>
    by_cases hc : p c
    · simp [List.dropWhile_cons, hc, ih]
    · simp [List.dropWhile_cons, hc]

theorem isWordAt_append_space (src v : List Nat) (i : Nat)
    (h : i ≤ src.length) : isWordAt (src ++ 32 :: v) i = isWordAt src i := by
  unfold isWordAt
  rcases Nat.lt_or_ge i src.length with hi | hi
  · rw [List.getD_append _ _ _ _ hi]
  · have he : i = src.length := Nat.le_antisymm h hi
    subst he
    rw [List.getD_append_right _ _ _ _ (Nat.le_refl _), Nat.sub_self,
      List.getD_eq_default _ _ (Nat.le_refl _)]
    simp [List.getD_cons_zero]
    decide

theorem tldBacktrack_append_space (src v : List Nat) :
    ∀ t0, t0 ≤ src.length →
      tldBacktrack (src ++ 32 :: v) t0 = tldBacktrack src t0 := by
  intro t0
  induction t0 with
  | zero => intro _; rfl
  | succ t0 ih =>
    intro h
    cases t0 with
    | zero => rfl
    | succ t0 =>
      simp only [tldBacktrack]
      rw [List.getD_append _ _ _ _ (by omega),
        isWordAt_append_space src v (t0 + 2) (by omega)]
      rw [ih (by omega)]

theorem domBacktrack_append_space (w v : List Nat) :
    ∀ d0, d0 < w.length →
      domBacktrack (w ++ 32 :: v) d0 = domBacktrack w d0 := by
  intro d0
  induction d0 with
  | zero => intro _; rfl
  | succ d ih =>
    intro h
    simp only [domBacktrack]
    rw [List.getD_append _ _ _ _ (by omega)]
    have hdrop : (w ++ 32 :: v).drop (d + 2) = w.drop (d + 2) ++ 32 :: v :=
      List.drop_append_of_le_length (by omega)
    rw [hdrop, takeWhile_append_not tldCode 32 (by decide) (w.drop (d + 2)) v,
      tldBacktrack_append_space (w.drop (d + 2)) v _
        ((List.takeWhile_prefix tldCode).length_le)]
    rw [ih (by omega)]

theorem tryMatch_append_space (pw : Bool) (u v : List Nat) :
    tryMatch pw (u ++ 32 :: v) =
      (tryMatch pw u).map (fun mr => (mr.1, mr.2 ++ 32 :: v)) := by
  simp only [tryMatch]
  rw [takeWhile_append_not localCode 32 (by decide) u v,
    dropWhile_append_not localCode 32 (by decide) u v]
  by_cases hloc : (u.takeWhile localCode).isEmpty = true
  · simp only [hloc, if_true, Option.map_none']
  · simp only [hloc, if_false, Bool.false_eq_true]
    by_cases hbd : (wordCode ((u.takeWhile localCode).headD 0) == pw) = true
    · simp only [hbd, if_true, Option.map_none']
    · simp only [hbd, if_false, Bool.false_eq_true]
      cases hdw : u.dropWhile localCode with
      | nil =>
        simp only [hdw, List.nil_append, List.headD_cons, List.headD_nil]
        simp only [show ((32 : Nat) == 64) = false from by decide,
          show ((0 : Nat) == 64) = false from by decide, if_false,
          Bool.false_eq_true, Option.map_none']
      | cons c2 w =>
        simp only [hdw, List.cons_append, List.headD_cons, List.tail_cons]
        by_cases hc2 : (c2 == 64) = true
        · simp only [hc2, if_true]
          rw [takeWhile_append_not domCode 32 (by decide) w v]
          by_cases hrun : (w.takeWhile domCode).length = 0
          · rw [hrun]
            simp only [Nat.zero_sub, domBacktrack, Option.map_none']
          · have hlt : (w.takeWhile domCode).length - 1 < w.length := by
              have := (List.takeWhile_prefix (l := w) domCode).length_le
              omega
            rw [domBacktrack_append_space w v _ hlt]
            cases hdb : domBacktrack w ((w.takeWhile domCode).length - 1) with
            | none => simp only [hdb, Option.map_none']
            | some dt =>
              obtain ⟨d, t⟩ := dt
              obtain ⟨hd1, hdle, htld⟩ := domBacktrack_facts w _ d t hdb
              obtain ⟨ht2, htle⟩ := tldBacktrack_bounds (w.drop (d + 1)) _ t htld
              have hdw1 : d + 1 ≤ w.length := by
                have := (List.takeWhile_prefix (l := w) domCode).length_le
                omega
              have htw : t ≤ (w.drop (d + 1)).length := by
                have := (List.takeWhile_prefix (l := w.drop (d + 1)) tldCode).length_le
                omega
              have e1 : (w ++ 32 :: v).take d = w.take d :=
                List.take_append_of_le_length (by omega)
              have e2 : (w ++ 32 :: v).drop (d + 1) = w.drop (d + 1) ++ 32 :: v :=
                List.drop_append_of_le_length hdw1
              have e3 : (w.drop (d + 1) ++ 32 :: v).take t =
                  (w.drop (d + 1)).take t :=
                List.take_append_of_le_length htw
              have e4 : (w ++ 32 :: v).drop (d + 1 + t) =
                  w.drop (d + 1 + t) ++ 32 :: v := by
                refine List.drop_append_of_le_length ?_
                rw [List.length_drop] at htw
                omega
              simp only [hdb, Option.map_some']
              rw [e1, e2, e3, e4]
        · simp only [hc2, if_false, Bool.false_eq_true, Option.map_none']

theorem scanAux_fuel : ∀ (f1 f2 : Nat) (pw : Bool) (l : List Nat),
    l.length ≤ f1 → l.length ≤ f2 → scanAux f1 pw l = scanAux f2 pw l := by
  intro f1
  induction f1 with
  | zero =>
    intro f2 pw l h1 h2
    have hl : l = [] := List.eq_nil_of_length_eq_zero (by omega)
    subst hl
    cases f2 <;> rfl
  | succ f1 ih =>
    intro f2 pw l h1 h2
    cases l with
    | nil => cases f2 <;> rfl
    | cons c cs =>
      cases f2 with
      | zero => simp at h2
      | succ f2 =>
        simp only [scanAux]
        cases htm : tryMatch pw (c :: cs) with
        | none =>
          simp only [htm]
          exact ih f2 (wordCode c) cs (by simpa using h1) (by simpa using h2)
        | some mr =>
          obtain ⟨m, rest⟩ := mr
          have hlt := (tryMatch_shape pw (c :: cs) m rest htm).2
          simp only [htm, List.length_cons] at *
          rw [ih f2 (wordCode (m.getLastD 0)) rest (by omega) (by omega)]

theorem scanFrom_cons_none (pw : Bool) (c : Nat) (cs : List Nat)
    (htm : tryMatch pw (c :: cs) = none) :
    scanFrom pw (c :: cs) = scanFrom (wordCode c) cs := by
  simp only [scanFrom, List.length_cons, scanAux, htm]

theorem scanFrom_cons_some (pw : Bool) (c : Nat) (cs m rest : List Nat)
    (htm : tryMatch pw (c :: cs) = some (m, rest)) :
    scanFrom pw (c :: cs) = m :: scanFrom (wordCode (m.getLastD 0)) rest := by
  have hrlt := (tryMatch_shape pw (c :: cs) m rest htm).2
  simp only [List.length_cons] at hrlt
  simp only [scanFrom, List.length_cons, scanAux, htm]
  rw [scanAux_fuel cs.length rest.length (wordCode (m.getLastD 0)) rest
    (by omega) (Nat.le_refl _)]

theorem scanFrom_append_space : ∀ (n : Nat) (u v : List Nat) (pw : Bool),
    u.length ≤ n →
    scanFrom pw (u ++ 32 :: v) = scanFrom pw u ++ scanFrom false v := by
  have hbase : ∀ (v : List Nat) (pw : Bool),
      scanFrom pw (([] : List Nat) ++ 32 :: v) =
        scanFrom pw ([] : List Nat) ++ scanFrom false v := by
    intro v pw
    have htm : tryMatch pw (32 :: v) = none := by
      simp [tryMatch, List.takeWhile_cons, show localCode 32 = false from by decide]
    rw [List.nil_append, scanFrom_cons_none pw 32 v htm,
      show wordCode 32 = false from by decide]
    rfl
  intro n
  induction n with
  | zero =>
    intro u v pw hu
    have hu0 : u = [] := List.eq_nil_of_length_eq_zero (by omega)
    subst hu0
    exact hbase v pw
  | succ n ih =>
    intro u v pw hu
    cases u with
    | nil => exact hbase v pw
    | cons c cs =>
      have hcs : cs.length ≤ n := by
        simp only [List.length_cons] at hu
        omega
      have hext := tryMatch_append_space pw (c :: cs) v
      have hcc : (c :: cs) ++ 32 :: v = c :: (cs ++ 32 :: v) := List.cons_append c cs _
      cases htm : tryMatch pw (c :: cs) with
      | none =>
        rw [htm] at hext
        simp only [Option.map_none'] at hext
        rw [hcc] at hext
        rw [hcc, scanFrom_cons_none pw c (cs ++ 32 :: v) hext,
          scanFrom_cons_none pw c cs htm]
        exact ih cs v (wordCode c) hcs
      | some mr =>
        obtain ⟨m, rest⟩ := mr
        rw [htm] at hext
        simp only [Option.map_some'] at hext
        rw [hcc] at hext
        have hrlt := (tryMatch_shape pw (c :: cs) m rest htm).2
        simp only [List.length_cons] at hrlt
        rw [hcc, scanFrom_cons_some pw c (cs ++ 32 :: v) m (rest ++ 32 :: v) hext,
          scanFrom_cons_some pw c cs m rest htm]
        rw [ih rest v (wordCode (m.getLastD 0)) (by omega)]
        simp

theorem splitNl_ne_nil : ∀ s : List Nat, splitNl s ≠ [] := by
  intro s
  cases s with
  | nil => simp [splitNl]
  | cons c cs =>
    simp only [splitNl]
    split_ifs
    · simp
    · cases splitNl cs <;> simp

theorem splitNl_cons_nl (v : List Nat) : splitNl (10 :: v) = [] :: splitNl v := by
  simp [splitNl]

theorem splitNl_no10 : ∀ l : List Nat, 10 ∉ l → splitNl l = [l] := by
  intro l
  induction l with
  | nil => intro _; rfl
  | cons c cs ih =>
    intro h
    have hc : c ≠ 10 := fun hc => h (hc ▸ List.mem_cons_self c cs)
    have hcs : 10 ∉ cs := fun hm => h (List.mem_cons_of_mem c hm)
    simp only [splitNl, hc, if_false, ih hcs]

theorem splitNl_append_nonl :
    ∀ (u v : List Nat), 10 ∉ u → splitNl (u ++ 10 :: v) = u :: splitNl v := by
  intro u v
  induction u with
  | nil => intro _; exact splitNl_cons_nl v
  | cons c cs ih =>
    intro h
    have hc : c ≠ 10 := fun hc => h (hc ▸ List.mem_cons_self c cs)
    have hcs : 10 ∉ cs := fun hm => h (List.mem_cons_of_mem c hm)
    simp only [List.cons_append, splitNl, hc, if_false, List.append_eq, ih hcs]

theorem splitNl_mem_no10 : ∀ (s : List Nat) (l : List Nat), l ∈ splitNl s → 10 ∉ l := by
  intro s
  induction s with
  | nil =>
    intro l hl
    simp [splitNl] at hl
    simp [hl]
  | cons c cs ih =>
    intro l hl
    by_cases hc : c = 10
    · subst hc
      rw [splitNl_cons_nl] at hl
      rcases List.mem_cons.1 hl with h | h
      · simp [h]
      · exact ih l h
    · simp only [splitNl, hc, if_false] at hl
      cases hsp : splitNl cs with
      | nil => exact absurd hsp (splitNl_ne_nil cs)
      | cons l0 ls0 =>
        rw [hsp] at hl
        rcases List.mem_cons.1 hl with h | h
        · subst h
          intro hmem
          rcases List.mem_cons.1 hmem with h10 | h10
          · exact hc h10.symm
          · exact ih l0 (hsp ▸ List.mem_cons_self l0 ls0) h10
        · exact ih l (hsp ▸ List.mem_cons_of_mem l0 h)

theorem joinNl_cons_ne (h : List Nat) (tl : List (List Nat)) (htl : tl ≠ []) :
    joinNl (h :: tl) = h ++ 10 :: joinNl tl := by
  cases tl with
  | nil => exact absurd rfl htl
  | cons x xs => rfl

theorem splitNl_joinNl : ∀ (ls : List (List Nat)), ls ≠ [] →
    (∀ l ∈ ls, 10 ∉ l) → splitNl (joinNl ls) = ls := by
  intro ls
  induction ls with
  | nil => intro h; exact absurd rfl h
  | cons l tl ih =>
    intro _ hno
    cases tl with
    | nil =>
      show splitNl (joinNl [l]) = [l]
      exact splitNl_no10 l (hno l (List.mem_cons_self l []))
    | cons x xs =>
      rw [joinNl_cons_ne l (x :: xs) (by simp)]
      rw [splitNl_append_nonl l (joinNl (x :: xs))
        (hno l (List.mem_cons_self l (x :: xs)))]
      rw [ih (by simp) (fun y hy => hno y (List.mem_cons_of_mem l hy))]

theorem coalesce_nil (b : Bool) : coalesce [] b = [] := rfl

theorem coalesce_cons_empty_true (l : List Nat) (ls : List (List Nat))
    (hl : l.isEmpty = true) :
    coalesce (l :: ls) true = [] :: coalesce ls false := by
  simp [coalesce, hl]

theorem coalesce_cons_empty_false (l : List Nat) (ls : List (List Nat))
    (hl : l.isEmpty = true) :
    coalesce (l :: ls) false = coalesce ls false := by
  simp [coalesce, hl]

theorem coalesce_cons_ne (l : List Nat) (ls : List (List Nat)) (b : Bool)
    (hl : ¬(l.isEmpty = true)) :
    coalesce (l :: ls) b = l :: coalesce ls true := by
  simp [coalesce, hl]

theorem coalesce_false_head : ∀ (ls : List (List Nat)) (h : List Nat)
    (tl : List (List Nat)), coalesce ls false = h :: tl → h ≠ [] := by
  intro ls
  induction ls with
  | nil => intro h tl hc; simp [coalesce_nil] at hc
  | cons l ls ih =>
    intro h tl hc
    by_cases hl : l.isEmpty = true
    · rw [coalesce_cons_empty_false l ls hl] at hc
      exact ih h tl hc
    · rw [coalesce_cons_ne l ls false hl] at hc
      injection hc with h1 _
      exact fun hcon => hl (by simp [h1, hcon])

theorem noAdjEmpty_tail (a : List Nat) (r : List (List Nat))
    (h : noAdjEmpty (a :: r)) : noAdjEmpty r := by
  cases r with
  | nil => trivial
  | cons b t => exact h.2

theorem noAdjEmpty_cons (x : List Nat) (r : List (List Nat)) (hx : x ≠ [])
    (hr : noAdjEmpty r) : noAdjEmpty (x :: r) := by
  cases r with
  | nil => trivial
  | cons b t => exact ⟨Or.inl hx, hr⟩

theorem coalesce_noAdj : ∀ (ls : List (List Nat)) (b : Bool),
    noAdjEmpty (coalesce ls b) := by
  intro ls
  induction ls with
  | nil => intro b; rw [coalesce_nil]; trivial
  | cons l ls ih =>
    intro b
    by_cases hl : l.isEmpty = true
    · cases b with
      | false => rw [coalesce_cons_empty_false l ls hl]; exact ih false
      | true =>
        rw [coalesce_cons_empty_true l ls hl]
        cases hc : coalesce ls false with
        | nil => trivial
        | cons h0 t0 =>
          refine ⟨Or.inr (coalesce_false_head ls h0 t0 hc), ?_⟩
          rw [← hc]
          exact ih false
    · rw [coalesce_cons_ne l ls b hl]
      exact noAdjEmpty_cons l _ (fun hcon => hl (by simp [hcon])) (ih true)

theorem coalesce_mem : ∀ (ls : List (List Nat)) (b : Bool) (l : List Nat),
    l ∈ ls → l ≠ [] → l ∈ coalesce ls b := by
  intro ls
  induction ls with
  | nil => intro b l hl; cases hl
  | cons l0 ls ih =>
    intro b l hl hne
    rcases List.mem_cons.1 hl with h | h
    · subst h
      rw [coalesce_cons_ne l ls b (by simpa using hne)]
      exact List.mem_cons_self _ _
    · by_cases hl0 : l0.isEmpty = true
      · cases b with
        | false =>
          rw [coalesce_cons_empty_false l0 ls hl0]
          exact ih false l h hne
        | true =>
          rw [coalesce_cons_empty_true l0 ls hl0]
          exact List.mem_cons_of_mem _ (ih false l h hne)
      · rw [coalesce_cons_ne l0 ls b hl0]
        exact List.mem_cons_of_mem _ (ih true l h hne)

theorem coalesce_subset : ∀ (ls : List (List Nat)) (b : Bool) (x : List Nat),
    x ∈ coalesce ls b → x ∈ ls ∨ x = [] := by
  intro ls
  induction ls with
  | nil => intro b x hx; rw [coalesce_nil] at hx; cases hx
  | cons l ls ih =>
    intro b x hx
    by_cases hl : l.isEmpty = true
    · cases b with
      | false =>
        rw [coalesce_cons_empty_false l ls hl] at hx
        rcases ih false x hx with h | h
        · exact Or.inl (List.mem_cons_of_mem _ h)
        · exact Or.inr h
      | true =>
        rw [coalesce_cons_empty_true l ls hl] at hx
        rcases List.mem_cons.1 hx with h | h
        · exact Or.inr h
        · rcases ih false x h with h2 | h2
          · exact Or.inl (List.mem_cons_of_mem _ h2)
          · exact Or.inr h2
    · rw [coalesce_cons_ne l ls b hl] at hx
      rcases List.mem_cons.1 hx with h | h
      · exact Or.inl (h ▸ List.mem_cons_self _ _)
      · rcases ih true x h with h2 | h2
        · exact Or.inl (List.mem_cons_of_mem _ h2)
        · exact Or.inr h2

theorem noAdj_append_singleton : ∀ (xs : List (List Nat)) (x : List Nat),
    noAdjEmpty (xs ++ [x]) → noAdjEmpty xs := by
  intro xs
  induction xs with
  | nil => intro x _; trivial
  | cons a xs ih =>
    intro x h
    cases xs with
    | nil => trivial
    | cons b t =>
      have h2 := noAdjEmpty_tail a ((b :: t) ++ [x]) h
      refine ⟨?_, ih x h2⟩
      exact h.1

theorem noAdj_pair_last : ∀ (xs : List (List Nat)) (y z : List Nat),
    noAdjEmpty (xs ++ [y, z]) → y ≠ [] ∨ z ≠ [] := by
  intro xs
  induction xs with
  | nil => intro y z h; exact h.1
  | cons a xs ih =>
    intro y z h
    exact ih y z (noAdjEmpty_tail a (xs ++ [y, z]) h)

theorem getLast?_decomp : ∀ (l : List (List Nat)) (y : List Nat),
    l.getLast? = some y → ∃ init, l = init ++ [y] := by
  intro l
  induction l with
  | nil => intro y h; cases h
  | cons a l ih =>
    intro y h
    cases l with
    | nil =>
      simp only [List.getLast?_singleton, Option.some.injEq] at h
      exact ⟨[], by simp [h]⟩
    | cons b t =>
      rw [List.getLast?_cons_cons] at h
      obtain ⟨init, hinit⟩ := ih y h
      exact ⟨a :: init, by rw [List.cons_append, ← hinit]⟩

theorem dropWhile_head_not (p : Nat → Bool) :
    ∀ (l : List Nat) (c : Nat), (l.dropWhile p).head? = some c → p c = false := by
  intro l
  induction l with
  | nil => intro c h; cases h
  | cons a l ih =>
    intro c h
    by_cases ha : p a
    · rw [List.dropWhile_cons_of_pos ha] at h
      exact ih c h
    · rw [List.dropWhile_cons_of_neg ha] at h
      simp only [List.head?_cons, Option.some.injEq] at h
      rw [← h]
      exact Bool.eq_false_iff.2 ha

theorem dropWhile_eq_self_head (p : Nat → Bool) (l : List Nat)
    (h : ∀ c, l.head? = some c → p c = false) : l.dropWhile p = l := by
  cases l with
  | nil => rfl
  | cons a w => rw [List.dropWhile_cons_of_neg (by simp [h a rfl])]

theorem stripWs_prefix (l : List Nat) :
    stripWs l <+: l.dropWhile isSpaceCode := by
  unfold stripWs
  have h1 : ((l.dropWhile isSpaceCode).reverse.dropWhile isSpaceCode) <:+
      (l.dropWhile isSpaceCode).reverse := List.dropWhile_suffix _
  have h2 := h1.reverse
  rwa [List.reverse_reverse] at h2

theorem stripWs_head_not (l : List Nat) (c : Nat) (w : List Nat)
    (h : stripWs l = c :: w) : isSpaceCode c = false := by
  obtain ⟨t, ht⟩ := stripWs_prefix l
  rw [h] at ht
  have : (l.dropWhile isSpaceCode).head? = some c := by
    rw [← ht]; rfl
  exact dropWhile_head_not isSpaceCode l c this

theorem stripWs_last_not (l : List Nat) (c : Nat)
    (h : (stripWs l).getLast? = some c) : isSpaceCode c = false := by
  unfold stripWs at h
  rw [List.getLast?_reverse] at h
  exact dropWhile_head_not isSpaceCode (l.dropWhile isSpaceCode).reverse c h

theorem stripWs_eq_self_ends (l : List Nat)
    (h1 : ∀ c, l.head? = some c → isSpaceCode c = false)
    (h2 : ∀ c, l.getLast? = some c → isSpaceCode c = false) :
    stripWs l = l := by
  unfold stripWs
  rw [dropWhile_eq_self_head isSpaceCode l h1]
  rw [dropWhile_eq_self_head isSpaceCode l.reverse
    (fun c hc => h2 c (by rwa [List.head?_reverse] at hc))]
  exact List.reverse_reverse l

theorem stripWs_idem (l : List Nat) : stripWs (stripWs l) = stripWs l := by
  refine stripWs_eq_self_ends (stripWs l) ?_ ?_
  · intro c hc
    cases hs : stripWs l with
    | nil => rw [hs] at hc; cases hc
    | cons a w =>
      rw [hs] at hc
      simp only [List.head?_cons, Option.some.injEq] at hc
      rw [← hc]
      exact stripWs_head_not l a w hs
  · intro c hc
    exact stripWs_last_not l c hc

theorem stripWs_mem (l : List Nat) (c : Nat) (hc : c ∈ stripWs l) : c ∈ l := by
  unfold stripWs at hc
  rw [List.mem_reverse] at hc
  have h1 := (List.dropWhile_sublist (l := (l.dropWhile isSpaceCode).reverse)
    (p := isSpaceCode)).mem hc
  rw [List.mem_reverse] at h1
  exact (List.dropWhile_sublist (l := l) (p := isSpaceCode)).mem h1

theorem joinNl_head_char (h : List Nat) (tl : List (List Nat)) (c : Nat)
    (w : List Nat) (hh : h = c :: w) : (joinNl (h :: tl)).head? = some c := by
  cases tl with
  | nil => rw [show joinNl [h] = h from rfl, hh]; rfl
  | cons x xs =>
    rw [joinNl_cons_ne h (x :: xs) (by simp), hh]
    rfl

theorem joinNl_last_ne : ∀ (X : List (List Nat)) (y : List Nat),
    X.getLast? = some y → y ≠ [] → joinNl X ≠ [] := by
  intro X
  induction X with
  | nil => intro y h; cases h
  | cons a X ih =>
    intro y h hy
    cases X with
    | nil =>
      simp only [List.getLast?_singleton, Option.some.injEq] at h
      rw [show joinNl [a] = a from rfl, h]
      exact hy
    | cons b t =>
      rw [joinNl_cons_ne a (b :: t) (by simp)]
      simp

theorem joinNl_last_char : ∀ (X : List (List Nat)) (y : List Nat),
    X.getLast? = some y → y ≠ [] →
    (joinNl X).getLast? = y.getLast? := by
  intro X
  induction X with
  | nil => intro y h; cases h
  | cons a X ih =>
    intro y h hy
    cases X with
    | nil =>
      simp only [List.getLast?_singleton, Option.some.injEq] at h
      rw [show joinNl [a] = a from rfl, h]
    | cons b t =>
      rw [List.getLast?_cons_cons] at h
      rw [joinNl_cons_ne a (b :: t) (by simp)]
      rw [List.getLast?_append]
      have hne := joinNl_last_ne (b :: t) y h hy
      cases hj : joinNl (b :: t) with
      | nil => exact absurd hj hne
      | cons j js =>
        rw [List.getLast?_cons_cons, ← hj, ih y h hy]
        cases hy2 : y.getLast? with
        | none => exact absurd (List.getLast?_eq_none_iff.1 hy2) hy
        | some c => rfl

theorem joinNl_append_empty : ∀ (init : List (List Nat)), init ≠ [] →
    joinNl (init ++ [[]]) = joinNl init ++ [10] := by
  intro init
  induction init with
  | nil => intro h; exact absurd rfl h
  | cons a init ih =>
    intro _
    cases init with
    | nil => rfl
    | cons b t =>
      rw [List.cons_append, joinNl_cons_ne a ((b :: t) ++ [[]]) (by simp),
        joinNl_cons_ne a (b :: t) (by simp), ih (by simp)]
      simp

theorem strip_concat_nl (w : List Nat)
    (h1 : ∀ c, w.head? = some c → isSpaceCode c = false)
    (h2 : ∀ c, w.getLast? = some c → isSpaceCode c = false) :
    stripWs (w ++ [10]) = w := by
  cases w with
  | nil => decide
  | cons c x =>
    unfold stripWs
    rw [List.cons_append, List.dropWhile_cons_of_neg (by simp [h1 c rfl])]
    rw [show (c :: (x ++ [10])).reverse = 10 :: (c :: x).reverse from by simp]
    rw [List.dropWhile_cons_of_pos (by decide)]
    rw [dropWhile_eq_self_head isSpaceCode (c :: x).reverse
      (fun d hd => h2 d (by rwa [List.head?_reverse] at hd))]
    exact List.reverse_reverse (c :: x)

theorem cleanup_props (t : List Nat)
    (hnb : ∃ l ∈ splitNl t, stripWs l ≠ []) :
    (∀ l ∈ splitNl (cleanupTemplate t), stripWs l = l) ∧
    noAdjEmpty (splitNl (cleanupTemplate t)) ∧
    (splitNl (cleanupTemplate t)).head? ≠ some [] ∧
    (splitNl (cleanupTemplate t)).getLast? ≠ some [] := by
  obtain ⟨l0, hl0, hl0ne⟩ := hnb
  set cleaned := coalesce ((splitNl t).map stripWs) false with hcleanedDef
  have hstripmem : ∀ x ∈ cleaned, stripWs x = x := by
    intro x hx
    rcases coalesce_subset _ false x hx with h | h
    · obtain ⟨y, _, rfl⟩ := List.mem_map.1 h
      exact stripWs_idem y
    · rw [h]; rfl
  have hno10 : ∀ x ∈ cleaned, 10 ∉ x := by
    intro x hx hmem
    rcases coalesce_subset _ false x hx with h | h
    · obtain ⟨y, hy, rfl⟩ := List.mem_map.1 h
      exact splitNl_mem_no10 t y hy (stripWs_mem y 10 hmem)
    · rw [h] at hmem; cases hmem
  have hclne : cleaned ≠ [] := by
    have hmem0 : stripWs l0 ∈ (splitNl t).map stripWs :=
      List.mem_map_of_mem _ hl0
    have hmem1 := coalesce_mem _ false (stripWs l0) hmem0 hl0ne
    intro hc
    rw [← hcleanedDef] at hmem1
    rw [hc] at hmem1
    cases hmem1
  have hnadj : noAdjEmpty cleaned := coalesce_noAdj _ false
  have hline_ends : ∀ x ∈ cleaned, x ≠ [] →
      (∀ c, x.head? = some c → isSpaceCode c = false) ∧
      (∀ c, x.getLast? = some c → isSpaceCode c = false) := by
    intro x hx hxne
    have hsx := hstripmem x hx
    constructor
    · intro c hc
      obtain ⟨a, w, hxs⟩ : ∃ a w, x = a :: w := by
        cases x with
        | nil => exact absurd rfl hxne
        | cons a b => exact ⟨a, b, rfl⟩
      rw [hxs, List.head?_cons] at hc
      injection hc with hc
      exact hc ▸ stripWs_head_not x a w (hsx.trans hxs)
    · intro c hc
      exact stripWs_last_not x c (by rw [hsx]; exact hc)
  have hbody : cleanupTemplate t = stripWs (joinNl cleaned) := rfl
  cases hcl : cleaned with
  | nil => exact absurd hcl hclne
  | cons h tl =>
    have hh : h ≠ [] := coalesce_false_head _ h tl hcl
    have hhm : h ∈ cleaned := by rw [hcl]; exact List.mem_cons_self h tl
    obtain ⟨c0, w0, hc0⟩ : ∃ c0 w0, h = c0 :: w0 := by
      cases h with
      | nil => exact absurd rfl hh
      | cons a b => exact ⟨a, b, rfl⟩
    by_cases hlast : cleaned.getLast? = some []
    · -- trailing blank line: it is joined as a final newline and stripped away
      obtain ⟨init, hinit⟩ := getLast?_decomp cleaned [] hlast
      have hinitne : init ≠ [] := by
        intro h0
        rw [h0, List.nil_append] at hinit
        rw [hinit] at hcl
        injection hcl with h1 _
        exact hh h1.symm
      obtain ⟨i0, it, hi0⟩ : ∃ i0 it, init = i0 :: it := by
        cases init with
        | nil => exact absurd rfl hinitne
        | cons a b => exact ⟨a, b, rfl⟩
      have hi0h : i0 = h := by
        have hcc : cleaned = i0 :: (it ++ [[]]) := by
          rw [hinit, hi0]
          simp
        rw [hcl] at hcc
        injection hcc with h1 _
        exact h1.symm
      cases hiy : init.getLast? with
      | none => exact absurd (List.getLast?_eq_none_iff.1 hiy) hinitne
      | some y =>
        obtain ⟨init2, hinit2⟩ := getLast?_decomp init y hiy
        have hyne : y ≠ [] := by
          have hshape : init2 ++ [y, []] = cleaned := by
            rw [hinit, hinit2]
            simp
          rcases noAdj_pair_last init2 y []
            (by rw [hshape]; exact hnadj) with hy | hy
          · exact hy
          · exact absurd rfl hy
        have hsub : ∀ x ∈ init, x ∈ cleaned := by
          intro x hx
          rw [hinit]
          exact List.mem_append_left _ hx
        have hym : y ∈ init := by
          rw [hinit2]
          exact List.mem_append_right _ (List.mem_cons_self y [])
        have hjoin : joinNl cleaned = joinNl init ++ [10] := by
          rw [hinit]
          exact joinNl_append_empty init hinitne
        have hjh : (joinNl init).head? = some c0 := by
          rw [hi0, hi0h]
          exact joinNl_head_char h it c0 w0 hc0
        have hjl : (joinNl init).getLast? = y.getLast? :=
          joinNl_last_char init y hiy hyne
        have hstr : stripWs (joinNl init ++ [10]) = joinNl init := by
          refine strip_concat_nl (joinNl init) ?_ ?_
          · intro c hc
            rw [hjh] at hc
            injection hc with hc
            subst hc
            exact (hline_ends h hhm hh).1 c0 (by rw [hc0]; rfl)
          · intro c hc
            rw [hjl] at hc
            exact (hline_ends y (hsub y hym) hyne).2 c hc
        have hsplit : splitNl (joinNl init) = init :=
          splitNl_joinNl init hinitne (fun l hl => hno10 l (hsub l hl))
        rw [hbody, hjoin, hstr, hsplit]
        refine ⟨fun l hl => hstripmem l (hsub l hl), ?_, ?_, ?_⟩
        · have : noAdjEmpty (init ++ [[]]) := by rw [← hinit]; exact hnadj
          exact noAdj_append_singleton init [] this
        · rw [hi0, List.head?_cons]
          intro hcon
          injection hcon with hcon
          exact hh (hi0h ▸ hcon)
        · rw [hinit2, List.getLast?_concat]
          intro hcon
          injection hcon with hcon
          exact hyne hcon
    · -- last line non-blank: the whole join is already stripped
      cases hy : cleaned.getLast? with
      | none => exact absurd (List.getLast?_eq_none_iff.1 hy) hclne
      | some y =>
        have hyne : y ≠ [] := by
          intro hcon
          rw [hcon] at hy
          exact hlast hy
        obtain ⟨initc, hinitc⟩ := getLast?_decomp cleaned y hy
        have hym : y ∈ cleaned := by
          rw [hinitc]
          exact List.mem_append_right _ (List.mem_cons_self y [])
        have hjh : (joinNl cleaned).head? = some c0 := by
          rw [hcl]
          exact joinNl_head_char h tl c0 w0 hc0
        have hjl : (joinNl cleaned).getLast? = y.getLast? :=
          joinNl_last_char cleaned y hy hyne
        have hstr : stripWs (joinNl cleaned) = joinNl cleaned := by
          refine stripWs_eq_self_ends (joinNl cleaned) ?_ ?_
          · intro c hc
            rw [hjh] at hc
            injection hc with hc
            subst hc
            exact (hline_ends h hhm hh).1 c0 (by rw [hc0]; rfl)
          · intro c hc
            rw [hjl] at hc
            exact (hline_ends y hym hyne).2 c hc
        have hsplit : splitNl (joinNl cleaned) = cleaned :=
          splitNl_joinNl cleaned hclne hno10
        rw [hbody, hstr, hsplit]
        refine ⟨hstripmem, hnadj, ?_, ?_⟩
        · rw [hcl, List.head?_cons]
          intro hcon
          injection hcon with hcon
          exact hh hcon
        · rw [hy]
          intro hcon
          injection hcon with hcon
          exact hyne hcon

set_option maxRecDepth 10000

/-! ## Claim theorems -/

/-- C1: the spec says a request whose discovery yields zero candidates is
answered with 404 and writes no history rows.  The `raise HTTPException(404)`
at line 1034 sits inside the `try` block whose `except Exception` handler
(line 1098) also catches `HTTPException`, so the client actually receives a
500; no history rows are written.  The second conjunct shows the intended 404
produced by the `try` body before the handler swallows it. -/
theorem send_job_emails_empty_scrape_500 (req : JobRequest)
    (sendOk : List Nat → Bool) (db : List LogRecord) :
    send_job_emails req [] sendOk db =
      (Except.error ⟨500, codes "Internal server error: " ++
        codes "No recruiter emails found for this job criteria"⟩, db) ∧
    send_job_emails_inner req [] sendOk db =
      (Except.error ⟨404, codes "No recruiter emails found for this job criteria"⟩, db) := by
  constructor
  · simp [send_job_emails, send_job_emails_inner]
  · simp [send_job_emails_inner]

/-- C3: the dispatch loop persists exactly one history row per attempted
candidate — the row list is the pointwise image of the candidate list, so its
length equals the number attempted and no candidate is skipped after an
earlier failure — each row's status is `sent` exactly when the transport
succeeded for that address and `failed` otherwise, and sent + failed equals
the number attempted. -/
theorem dispatch_one_record_per_candidate (jt : List Nat)
    (sendOk : List Nat → Bool) (es : List (List Nat)) :
    (dispatchLoop jt sendOk es).2.2.2 =
      es.map (fun e =>
        (⟨jt, e, if sendOk e then codes "sent" else codes "failed"⟩ : LogRecord)) ∧
    (dispatchLoop jt sendOk es).2.2.2.length = es.length ∧
    (dispatchLoop jt sendOk es).1 = (es.filter (fun e => sendOk e)).length ∧
    (dispatchLoop jt sendOk es).2.1 = (es.filter (fun e => !(sendOk e))).length ∧
    (dispatchLoop jt sendOk es).1 + (dispatchLoop jt sendOk es).2.1 = es.length := by
  induction es with
  | nil => simp [dispatchLoop]
  | cons e es ih =>
    obtain ⟨h1, h2, h3, h4, h5⟩ := ih
    by_cases hs : sendOk e <;>
      simp [dispatchLoop, hs, h1, h2, h3, h4] <;> omega

/-- C4: the history filter returns exactly the set difference of candidates
and history, together with the count removed (equal to the cardinality drop
when the candidate list is duplicate-free, as the `list(set(...))` candidate
lists of the source are); filtering an empty history keeps everything,
filtering an empty candidate set yields nothing; and across the whole
endpoint the only database writes are the dispatch rows — the filter step
writes nothing. -/
theorem history_filter_set_difference :
    (∀ C H : List (List Nat),
      ((historyFilter C H).1).toFinset = C.toFinset \ H.toFinset) ∧
    (∀ C H : List (List Nat),
      (historyFilter C H).2 = C.length - (historyFilter C H).1.length) ∧
    (∀ C H : List (List Nat), C.Nodup →
      (historyFilter C H).2 = C.toFinset.card - (C.toFinset \ H.toFinset).card) ∧
    (∀ C : List (List Nat), historyFilter C [] = (C, 0)) ∧
    (∀ H : List (List Nat), historyFilter [] H = ([], 0)) ∧
    (∀ (req : JobRequest) (scraped : List (List Nat)) (sendOk : List Nat → Bool)
       (db : List LogRecord),
      (send_job_emails req scraped sendOk db).2 =
        db ++ (dispatchLoop req.job_title sendOk
          (historyFilter scraped (get_existing_emails db)).1).2.2.2) := by
  have hdiff : ∀ C H : List (List Nat),
      ((historyFilter C H).1).toFinset = C.toFinset \ H.toFinset := by
    intro C H
    ext a
    simp [historyFilter, List.mem_filter]
  refine ⟨hdiff, fun C H => rfl, ?_, ?_, fun H => rfl, ?_⟩
  · intro C H hnd
    have hn : ((historyFilter C H).1).Nodup := List.Nodup.filter _ hnd
    have e1 : C.toFinset.card = C.length := List.toFinset_card_of_nodup hnd
    have e2 : ((historyFilter C H).1).toFinset.card = (historyFilter C H).1.length :=
      List.toFinset_card_of_nodup hn
    have := hdiff C H
    calc (historyFilter C H).2 = C.length - (historyFilter C H).1.length := rfl
      _ = C.toFinset.card - ((historyFilter C H).1).toFinset.card := by rw [e1, e2]
      _ = C.toFinset.card - (C.toFinset \ H.toFinset).card := by rw [this]
  · intro C
    simp [historyFilter]
  · intro req scraped sendOk db
    by_cases hs : scraped.isEmpty
    · have : scraped = [] := List.isEmpty_iff.1 hs
      subst this
      simp [send_job_emails, send_job_emails_inner, historyFilter, dispatchLoop]
    · by_cases hn : (historyFilter scraped (get_existing_emails db)).1.isEmpty
      · have h0 : (historyFilter scraped (get_existing_emails db)).1 = [] :=
          List.isEmpty_iff.1 hn
        simp [send_job_emails, send_job_emails_inner, hs, hn, h0, dispatchLoop]
      · simp [send_job_emails, send_job_emails_inner, hs, hn]

/-- C4 witness: instantiating the removed-count equation at a two-candidate
set with one already-contacted address. -/
theorem history_filter_set_difference_witness :
    ([codes "a@b.cd", codes "x@y.zw"] : List (List Nat)).Nodup ∧
    (historyFilter [codes "a@b.cd", codes "x@y.zw"] [codes "x@y.zw"]).2 =
      ([codes "a@b.cd", codes "x@y.zw"] : List (List Nat)).toFinset.card -
        (([codes "a@b.cd", codes "x@y.zw"] : List (List Nat)).toFinset \
          ([codes "x@y.zw"] : List (List Nat)).toFinset).card :=
  ⟨by decide,
   history_filter_set_difference.2.2.1 [codes "a@b.cd", codes "x@y.zw"]
     [codes "x@y.zw"] (by decide)⟩

/-- C10: when discovery yields candidates but every one of them is already in
the contact history, the endpoint returns the normal early summary of lines
1047-1057 — a 200 response, not an error — with zero new/sent/failed counts,
an empty address list, the skipped count equal to the scraped count, and no
database writes. -/
theorem send_job_emails_all_duplicates (req : JobRequest)
    (scraped : List (List Nat)) (sendOk : List Nat → Bool) (db : List LogRecord)
    (h1 : scraped ≠ [])
    (h2 : ∀ e ∈ scraped, e ∈ get_existing_emails db) :
    send_job_emails req scraped sendOk db =
      (Except.ok
        ⟨codes "No new emails to send - all scraped emails have been contacted before",
         req.job_title, scraped.length, scraped.length, 0, 0, 0, []⟩, db) := by
  have hnew : (historyFilter scraped (get_existing_emails db)).1 = [] := by
    simp only [historyFilter]
    exact List.filter_eq_nil_iff.2 (fun e he => by simp [h2 e he])
  have hskip : (historyFilter scraped (get_existing_emails db)).2 = scraped.length := by
    have hd : (historyFilter scraped (get_existing_emails db)).2 =
        scraped.length - (historyFilter scraped (get_existing_emails db)).1.length := rfl
    rw [hd, hnew]
    simp
  simp [send_job_emails, send_job_emails_inner, h1, hnew, hskip]

/-- C10 witness: one scraped address already present in the history yields
the early 200 summary with a skipped count of one and an unchanged
database. -/
theorem send_job_emails_all_duplicates_witness :
    send_job_emails sampleReq [codes "a@b.cd"] (fun _ => true)
        [⟨codes "Backend Engineer", codes "a@b.cd", codes "sent"⟩] =
      (Except.ok
        ⟨codes "No new emails to send - all scraped emails have been contacted before",
         sampleReq.job_title, 1, 1, 0, 0, 0, []⟩,
       [⟨codes "Backend Engineer", codes "a@b.cd", codes "sent"⟩]) :=
  send_job_emails_all_duplicates sampleReq [codes "a@b.cd"] (fun _ => true)
    [⟨codes "Backend Engineer", codes "a@b.cd", codes "sent"⟩]
    (by decide) (by decide)

/-- C8: when the API key or the search engine id is missing or empty, the
search client returns an empty result immediately; the function is total, no
failure path is taken. -/
theorem scrape_google_search_no_creds (apiKey engineId : Option (List Nat))
    (oracle : SearchOracle)
    (h : truthyOpt apiKey = false ∨ truthyOpt engineId = false) :
    scrape_google_search apiKey engineId oracle = [] := by
  rcases h with h | h <;> simp [scrape_google_search, h]

/-- C8 witness: with no API key configured, even a run whose query oracle
would return results yields the empty set. -/
theorem scrape_google_search_no_creds_witness :
    truthyOpt none = false ∧
    scrape_google_search none (some (codes "cx"))
      ⟨[fun _ => PageOutcome.ok 200 []], [], []⟩ = [] :=
  ⟨rfl, scrape_google_search_no_creds none (some (codes "cx")) _ (Or.inl rfl)⟩

/-- C2: the spec claims the candidate set handed to dispatch is capped at
`max_emails`, but no truncation exists in the live path (`generate_company_emails`,
the only place that truncates, is commented out at line 287, and
`final_emails = list(all_emails)` at line 321 applies no limit).  With
`max_emails = 10` and a single search page carrying eleven addresses, eleven
candidates are scraped and all eleven are dispatched. -/
theorem scrape_exceeds_max_emails :
    sampleReq.max_emails = 10 ∧
    scrape_job_emails (some (codes "k")) (some (codes "cx")) c2oracle = c2emails ∧
    c2emails.length = 11 ∧
    ¬(c2emails.length ≤ sampleReq.max_emails) ∧
    (send_job_emails_pipeline sampleReq (some (codes "k")) (some (codes "cx"))
        c2oracle (fun _ => true) []).1 =
      Except.ok
        ⟨codes "Email sending process completed with deduplication",
         sampleReq.job_title, 11, 0, 11, 11, 0, c2emails⟩ := by
  refine ⟨rfl, by decide, rfl, by decide, rfl⟩

/-- C7 counterexample: a query whose second result page raises — a failing
query in the sense of the claim — still contributes the candidate harvested
from its first page, not zero candidates. -/
theorem search_failing_query_contributes :
    c7fetch 11 = PageOutcome.exn ∧
    search_and_extract c7fetch = [codes "team1@corp.io"] ∧
    [codes "team1@corp.io"] ≠ ([] : List (List Nat)) := by
  refine ⟨rfl, by decide, by decide⟩

/-- C7 amended: a failing query is caught and contributes exactly the
candidates harvested before the failure — zero when the failure precedes any
harvest — and neither a failure nor a rate limit aborts the enclosing batch:
every candidate of every query in a batch reaches the accumulated batch
result regardless of the other queries. -/
theorem search_failure_isolation (fetch : Nat → PageOutcome) :
    (fetch 1 = PageOutcome.exn → search_and_extract fetch = []) ∧
    (∀ items, fetch 1 = PageOutcome.ok 200 items → fetch 11 = PageOutcome.exn →
      search_and_extract fetch = (pageHarvest items).dedup) ∧
    (∀ (qs : List (Nat → PageOutcome)) (acc : List (List Nat)),
      fetch ∈ qs → ∀ e ∈ search_and_extract fetch, e ∈ runQueries qs acc) := by
  refine ⟨?_, ?_, ?_⟩
  · intro h
    simp [search_and_extract, searchPages, h]
  · intro items h1 h11
    simp [search_and_extract, searchPages, h1, h11]
  · intro qs acc hq e he
    exact runQueries_mem_of_query qs fetch hq acc e he

/-- C7 witness: instantiating the amended isolation statement at a concrete
query whose first page yields one address and whose second page raises. -/
theorem search_failure_isolation_witness :
    search_and_extract c7fetchW = (pageHarvest c7itemsW).dedup ∧
    codes "dev2@corp.io" ∈ runQueries [c7fetchW] [] :=
  ⟨(search_failure_isolation c7fetchW).2.1 c7itemsW rfl rfl,
   (search_failure_isolation c7fetchW).2.2 [c7fetchW] [] (by simp)
     (codes "dev2@corp.io") (by decide)⟩

/-- C5 counterexample: the claim says only strings shorter than 6 or longer
than 100 characters are rejected by the length bound, but the check
`len(email) < 100` is strict: a well-formed 100-character address matches the
pattern (the scanner returns it) yet is dropped, while the 99-character
variant is kept. -/
theorem extract_len100_boundary :
    e100.length = 100 ∧
    scanEmails e100 = [e100] ∧
    extract_emails_from_text e100 = [] ∧
    e99.length = 99 ∧
    extract_emails_from_text e99 = [e99] :=
  ⟨by decide, by decide, by decide, by decide, by decide⟩

/-- C5 amended: every address returned by the validator matches the email
lexical pattern, contains no ASCII uppercase letter, contains exactly one at
sign, contains none of the denylisted substrings, and has length at least 6
and at most 99; the length-and-at check accepts exactly the strings of length
6 to 99 with a single at sign (so a string of exactly 100 characters is also
rejected, not only those longer than 100). -/
theorem extract_valid_properties (text e : List Nat)
    (h : e ∈ extract_emails_from_text text) :
    emailShape e ∧
    (∀ c ∈ e, isUpperCode c = false) ∧
    e.count 64 = 1 ∧
    (∀ d ∈ denySubstrings, subOccurs d e = false) ∧
    6 ≤ e.length ∧ e.length ≤ 99 ∧
    (∀ s : List Nat, lengthAtCheck s = true ↔
      (6 ≤ s.length ∧ s.length ≤ 99 ∧ s.count 64 = 1)) := by
  have hlenchar : ∀ s : List Nat, lengthAtCheck s = true ↔
      (6 ≤ s.length ∧ s.length ≤ 99 ∧ s.count 64 = 1) := by
    intro s
    simp only [lengthAtCheck, Bool.and_eq_true, decide_eq_true_eq, beq_iff_eq]
    constructor
    · rintro ⟨⟨a, b⟩, c⟩; exact ⟨by omega, by omega, c⟩
    · rintro ⟨a, b, c⟩; exact ⟨⟨by omega, by omega⟩, c⟩
  simp only [extract_emails_from_text, List.mem_dedup, List.mem_filter,
    List.mem_map] at h
  obtain ⟨⟨m, hm, rfl⟩, hvf⟩ := h
  simp only [scanEmails] at hm
  have hshape := scanAux_shape text.length false text m hm
  have hmap : emailShape (m.map lowerCode) := emailShape_map_lower m hshape
  have hnosp : ∀ c ∈ m.map lowerCode, isSpaceCode c = false :=
    emailShape_no_space _ hmap
  have hstrip : stripWs (m.map lowerCode) = m.map lowerCode :=
    stripWs_eq_self _ hnosp
  rw [hstrip] at hvf ⊢
  have hvf2 := hvf
  simp only [validFilter, Bool.and_eq_true, Bool.not_eq_true',
    List.any_eq_false] at hvf2
  obtain ⟨hdeny, hlen⟩ := hvf2
  have hdeny2 : ∀ d ∈ denySubstrings, subOccurs d (m.map lowerCode) = false :=
    fun d hd => Bool.eq_false_iff.2 (hdeny d hd)
  have hlen3 := (hlenchar (m.map lowerCode)).1 hlen
  refine ⟨hmap, ?_, hlen3.2.2, hdeny2, hlen3.1, hlen3.2.1, hlenchar⟩
  intro c hc
  obtain ⟨c0, _, rfl⟩ := List.mem_map.1 hc
  exact lowerCode_not_upper c0

/-- C6 counterexample: injecting a known-good address into arbitrary text does
not always yield it — a word character directly before the injection point
merges into the local part, so the validator returns the merged address
instead.  `good@x.com` is known-good (extracting from it alone yields it),
yet with prefix `x` it is absent from the result. -/
theorem extract_inject_prefix_merges :
    codes "good@x.com" ∈ extract_emails_from_text (codes "good@x.com") ∧
    codes "good@x.com" ∉ extract_emails_from_text (codes "xgood@x.com") ∧
    extract_emails_from_text (codes "xgood@x.com") = [codes "xgood@x.com"] :=
  ⟨by decide, by decide, by decide⟩

/-- C6 amended: injecting a known-good (valid, non-denylisted) address into
any text with whitespace separation — any prefix and suffix separated from
the address by a space — always yields that address in the result set; and
`noreply@x.com` never appears in the output for any input text, since the
filter drops every candidate containing the denylisted substring `noreply`. -/
theorem extract_roundtrip_separated (a p s t : List Nat)
    (h : a ∈ extract_emails_from_text a) :
    a ∈ extract_emails_from_text (p ++ 32 :: (a ++ 32 :: s)) ∧
    codes "noreply@x.com" ∉ extract_emails_from_text t := by
  constructor
  · simp only [extract_emails_from_text, List.mem_dedup, List.mem_filter,
      List.mem_map] at h ⊢
    obtain ⟨⟨m, hm, he⟩, hvf⟩ := h
    refine ⟨⟨m, ?_, he⟩, hvf⟩
    have h1 : scanEmails (p ++ 32 :: (a ++ 32 :: s)) =
        scanFrom false p ++ (scanFrom false a ++ scanFrom false s) := by
      rw [show scanEmails (p ++ 32 :: (a ++ 32 :: s)) =
          scanFrom false (p ++ 32 :: (a ++ 32 :: s)) from rfl]
      rw [scanFrom_append_space p.length p (a ++ 32 :: s) false (Nat.le_refl _)]
      rw [scanFrom_append_space a.length a s false (Nat.le_refl _)]
    rw [h1]
    have hm2 : m ∈ scanFrom false a := hm
    simp only [List.mem_append]
    exact Or.inr (Or.inl hm2)
  · intro hmem
    simp only [extract_emails_from_text, List.mem_dedup, List.mem_filter] at hmem
    have hvf := hmem.2
    have : validFilter (codes "noreply@x.com") = false := by decide
    rw [this] at hvf
    cases hvf

/-- C6 witness: instantiating the separated round trip at a concrete
known-good address, prefix, suffix and noreply text. -/
theorem extract_roundtrip_separated_witness :
    codes "good@x.com" ∈ extract_emails_from_text
      (codes "contact" ++ 32 :: (codes "good@x.com" ++ 32 :: codes "now")) ∧
    codes "noreply@x.com" ∉ extract_emails_from_text
      (codes "ask noreply@x.com") :=
  extract_roundtrip_separated (codes "good@x.com") (codes "contact")
    (codes "now") (codes "ask noreply@x.com") (by decide)

/-- C5 witness: an uppercase address injected into text comes out lowercased,
in the result set, with the proved length bounds. -/
theorem extract_valid_properties_witness :
    codes "good@x.com" ∈ extract_emails_from_text (codes "mail Good@x.com now") ∧
    6 ≤ (codes "good@x.com").length ∧ (codes "good@x.com").length ≤ 99 := by
  have h := extract_valid_properties (codes "mail Good@x.com now")
    (codes "good@x.com") (by decide)
  exact ⟨by decide, h.2.2.2.2.1, h.2.2.2.2.2.1⟩

/-- C9: for every request and recipient address, splitting the rendered
message body on newlines yields lines that are each already stripped (so no
line is padded, and a blank line is exactly the empty line), with no two
adjacent blank lines, and with neither a leading nor a trailing blank line. -/
theorem rendered_email_no_blank_runs (senderEmail : List Nat)
    (req : JobRequest) (recipient : List Nat) :
    (∀ l ∈ splitNl (create_personalized_email senderEmail req recipient),
      stripWs l = l) ∧
    noAdjEmpty (splitNl (create_personalized_email senderEmail req recipient)) ∧
    (splitNl (create_personalized_email senderEmail req recipient)).head? ≠
      some [] ∧
    (splitNl (create_personalized_email senderEmail req recipient)).getLast? ≠
      some [] := by
  have hnb : ∃ l ∈ splitNl (emailTemplate senderEmail req), stripWs l ≠ [] := by
    obtain ⟨X, hX⟩ : ∃ X, emailTemplate senderEmail req =
        codes "\nDear Hiring Manager,\n\nI hope this email finds you well. I am writing to express my strong interest in the " ++
          X := ⟨_, rfl⟩
    have hlit :
        codes "\nDear Hiring Manager,\n\nI hope this email finds you well. I am writing to express my strong interest in the " =
        10 :: (codes "Dear Hiring Manager," ++
          (10 :: (10 ::
            codes "I hope this email finds you well. I am writing to express my strong interest in the "))) := by
      decide
    have h2 : emailTemplate senderEmail req =
        10 :: (codes "Dear Hiring Manager," ++
          (10 :: ((10 ::
            codes "I hope this email finds you well. I am writing to express my strong interest in the ") ++
              X))) := by
      rw [hX, hlit]
      simp [List.cons_append, List.append_assoc]
    refine ⟨codes "Dear Hiring Manager,", ?_, ?_⟩
    · rw [h2, splitNl_cons_nl, splitNl_append_nonl _ _ (by decide)]
      exact List.mem_cons_of_mem _ (List.mem_cons_self _ _)
    · decide
  exact cleanup_props (emailTemplate senderEmail req) hnb

end JobOutreach
